import Mathlib

/-!
Verification of the stochastic multipath fading channel of hermespy
(src/hermespy/channel/multipath_fading_channel.py), shallowly embedded in Lean.

Numeric values are modelled as real numbers, channel coefficients as complex
numbers.  The channel's private numpy random stream is modelled as the sequence
of realized uniform draws handed to successive `__tap` invocations.  Python
exceptions (ValueError at construction, ZeroDivisionError in `__tap`,
IndexError on out-of-bounds numpy indexing, TypeError on a missing constructor
argument, ValueError from `np.min` of an empty array) are modelled as the
`Except.error` / `none` branches of the corresponding definitions.
-/

namespace MultipathFading

open scoped Classical

noncomputable section

/-- Rice factor of a single path: the numpy arrays hold either a finite float or
`+inf` (`np.isposinf` distinguishes the two at lines 203-204 of the source). -/
inductive RiceFactor where
  | finite (k : ℝ)
  | posInf

/-- Validity of a configured Rice factor value: the source accepts any value
that is not strictly negative (line 178: `np.any(self.__rice_factors < 0.0)`);
`+inf` compares as not-less-than zero in IEEE semantics. -/
def RiceFactor.nonneg : RiceFactor → Prop
  | .finite k => 0 ≤ k
  | .posInf => True

/-- Per-path line-of-sight gain derived at construction (lines 208-210):
`1.0` at positions where the Rice factor is `+inf`, otherwise
`sqrt(K / (1 + K))`. -/
def los_gain : RiceFactor → ℝ
  | .finite k => Real.sqrt (k / (1 + k))
  | .posInf => 1

/-- Per-path non-line-of-sight gain derived at construction (lines 212-213):
`1 / sqrt(1 + K)` for finite K, `0.0` where the Rice factor is `+inf`. -/
def non_los_gain : RiceFactor → ℝ
  | .finite k => 1 / Real.sqrt (1 + k)
  | .posInf => 0

/-- Post-construction state of a `MultipathFadingChannel`.  The fields mirror
the attributes set in `__init__` (lines 159-213).  `impulse_response_interpolation`
and `gain` live in the `Channel` base class (channel/channel.py, not part of
src/); they are carried here as plain fields because the fading subclass only
reads them. -/
structure Config where
  delays : List ℝ
  power_profile : List ℝ
  rice_factors : List RiceFactor
  num_sinusoids : ℕ
  los_angle : Option ℝ
  doppler_frequency : ℝ
  los_doppler_frequency : Option ℝ
  gain : ℝ
  interpolate_signals : Option Bool
  impulse_response_interpolation : Bool
  los_gains : List ℝ
  non_los_gains : List ℝ

/-- Effective Doppler frequency of the line-of-sight component: the
`los_doppler_frequency` property (lines 266-276) falls back to the global
Doppler frequency when no dedicated value is configured. -/
def Config.los_doppler (cfg : Config) : ℝ :=
  cfg.los_doppler_frequency.getD cfg.doppler_frequency

/-- Insertion of a path triple into a delay-sorted list, keeping ascending
delay order. -/
def insert_path (x : ℝ × ℝ × RiceFactor) :
    List (ℝ × ℝ × RiceFactor) → List (ℝ × ℝ × RiceFactor)
  | [] => [x]
  | y :: ys => if x.1 ≤ y.1 then x :: y :: ys else y :: insert_path x ys

/-- Sorting of the configured (delay, power, rice factor) triples by ascending
delay, modelling the `np.argsort(delays)` re-indexing of lines 184-189. -/
def sort_paths : List (ℝ × ℝ × RiceFactor) → List (ℝ × ℝ × RiceFactor)
  | [] => []
  | x :: xs => insert_path x (sort_paths xs)

/-- Construction of a `MultipathFadingChannel` (`__init__`, lines 98-213).
The guard clauses replicate, in order, the validation of lines 166-179; the
numpy conditions `np.any(arr < 0)` become existential conditions over the
lists.  (The `ndim != 1` check of line 163 has no counterpart: the embedding
uses one-dimensional lists by construction.)  On success the path triples are
sorted by delay and the per-path gains are derived. -/
def mk_channel (delays power_profile : List ℝ) (rice_factors : List RiceFactor)
    (num_sinusoids : Option ℕ) (los_angle : Option ℝ)
    (doppler_frequency : Option ℝ) (los_doppler_frequency : Option ℝ)
    (interpolate_signals : Option Bool) (impulse_response_interpolation : Bool)
    (gain : ℝ) : Except String Config :=
  if delays.length ≠ power_profile.length ∨ power_profile.length ≠ rice_factors.length then
    .error "Delays, power profile and rice factor vectors must be of equal length"
  else if delays.length < 1 then
    .error "Configuration must contain at least one delay tap"
  else if ∃ d ∈ delays, d < 0 then
    .error "Delays must be greater or equal to zero"
  else if ∃ p ∈ power_profile, p < 0 then
    .error "Power profile factors must be greater or equal to zero"
  else if ∃ k, RiceFactor.finite k ∈ rice_factors ∧ k < 0 then
    .error "Rice factors must be greater or equal to zero"
  else
    let paths := sort_paths (delays.zip (power_profile.zip rice_factors))
    .ok {
      delays := paths.map (fun x => x.1)
      power_profile := paths.map (fun x => x.2.1)
      rice_factors := paths.map (fun x => x.2.2)
      num_sinusoids := num_sinusoids.getD 20
      los_angle := los_angle
      doppler_frequency := doppler_frequency.getD 0
      los_doppler_frequency := los_doppler_frequency
      gain := gain
      interpolate_signals := interpolate_signals
      impulse_response_interpolation := impulse_response_interpolation
      los_gains := paths.map (fun x => los_gain x.2.2)
      non_los_gains := paths.map (fun x => non_los_gain x.2.2) }

/-- Successful-construction predicate for the `Except` result of `mk_channel`
(Python: no exception escapes `__init__`). -/
def except_ok {ε α : Type} : Except ε α → Prop
  | .ok _ => True
  | .error _ => False

/-- Guard of the `num_sinusoids` setter (lines 329-330): a ValueError is
raised exactly for arguments strictly below zero. -/
def num_sinusoids_setter_rejects (num : ℤ) : Prop := num < 0

/-- Impulse response tensor, indexed by (time sample, rx antenna, tx antenna,
delay tap).  The numpy array of line 359 has finite extent
`[num_samples, num_rx, num_tx, max_delay_in_samples + 1]`; the embedding uses a
total function of the four indices, and only entries inside those bounds are
ever read. -/
abbrev Tensor : Type := ℕ → ℕ → ℕ → ℕ → ℂ

/-- Uniform random values consumed by one invocation of `__tap`
(lines 408-426): `num_sinusoids` angles, `num_sinusoids` phases, the fallback
line-of-sight angle drawn when none is configured, and the line-of-sight
phase. -/
structure TapDraws where
  nlos_angles : ℕ → ℝ
  nlos_phases : ℕ → ℝ
  los_angle_draw : ℝ
  los_phase : ℝ

/-- Value of a fading sequence tap at time `t`, equation (18) of Xiao et al. as
implemented in `__tap` (lines 407-428), given that the factor
`num_sinusoids ** -.5` evaluated without error. -/
def tap_body (cfg : Config) (lg ng : ℝ) (d : TapDraws) (t : ℝ) : ℂ :=
  let nlos : ℂ :=
    (∑ s ∈ Finset.range cfg.num_sinusoids,
      Complex.exp (Complex.I * ((cfg.doppler_frequency * t *
        Real.cos ((2 * Real.pi * s + d.nlos_angles s) / cfg.num_sinusoids) +
        d.nlos_phases s : ℝ) : ℂ)))
    * ((ng * ((cfg.num_sinusoids : ℝ) ^ (-(0.5 : ℝ))) : ℝ) : ℂ)
  let a : ℝ := cfg.los_angle.getD d.los_angle_draw
  let los : ℂ := ((lg : ℝ) : ℂ) * Complex.exp (Complex.I *
    ((cfg.los_doppler * t * Real.cos a + d.los_phase : ℝ) : ℂ))
  los + nlos

/-- One invocation of `__tap` (lines 384-428).  In Python the expression
`self.num_sinusoids ** -.5` of line 417 raises ZeroDivisionError when
`num_sinusoids = 0`; that failure is the `none` branch. -/
def tap (cfg : Config) (lg ng : ℝ) (d : TapDraws) : Option (ℝ → ℂ) :=
  if cfg.num_sinusoids = 0 then none else some (tap_body cfg lg ng d)

/-- Number of whole sampling intervals in the largest configured delay
(line 356, `int(self.__delays[-1] * sampling_rate)`; the delays are sorted
ascending, so the last one is the largest; for the nonnegative products
arising in use, Python `int()` truncation coincides with the floor). -/
def max_delay_in_samples (cfg : Config) (rate : ℝ) : ℕ :=
  (⌊cfg.delays.getLastD 0 * rate⌋).toNat

/-- Delay tap index of path `p` under the nearest-sample policy (line 379,
`int(self.__delays[path_idx] * sampling_rate)`). -/
def delay_idx (cfg : Config) (p : ℕ) (rate : ℝ) : ℕ :=
  (⌊cfg.delays.getD p 0 * rate⌋).toNat

/-- Normalized sinc kernel.  Modelled from the spec: the implementation of
`delay_resampling_matrix` (hermespy/tools/resampling.py) is not part of src/;
spec section 4.2 describes the interpolation filter as a normalized
windowed-sinc evaluated at the fractional offset between the path delay and
each tap instant. -/
def sinc (x : ℝ) : ℝ :=
  if x = 0 then 1 else Real.sin (Real.pi * x) / (Real.pi * x)

/-- Interpolation filter value for path `p` at delay tap `k`
(`interpolation_filter`, lines 448-467).  Modelled from the spec for the sinc
kernel itself (see `sinc`); the division by the filter norm follows line 465. -/
def interpolation_filter (cfg : Config) (rate : ℝ) (num_taps : ℕ) (p k : ℕ) : ℝ :=
  sinc (cfg.delays.getD p 0 * rate - k) /
    Real.sqrt (∑ j ∈ Finset.range num_taps, sinc (cfg.delays.getD p 0 * rate - j) ^ 2)

/-- Per-path loop data of `impulse_response` (line 368):
`zip(power_profile, range(num_resolvable_paths), los_gains, non_los_gains)`,
which truncates to the shortest of the zipped sequences exactly as Python
`zip` does. -/
def path_entries (cfg : Config) : List (ℝ × ℕ × ℝ × ℝ) :=
  cfg.power_profile.zip ((List.range cfg.delays.length).zip
    (cfg.los_gains.zip cfg.non_los_gains))

/-- Iteration sequence of the nested loops of lines 368-371: for every path
entry, `product(range(transmitter.num_antennas), range(receiver.num_antennas))`
unpacked as `(rx_idx, tx_idx)` - note that the first component ranges over the
transmitter antenna count and the second over the receiver antenna count,
exactly as in the source. -/
def tap_calls (cfg : Config) (nt nr : ℕ) : List ((ℝ × ℕ × ℝ × ℝ) × ℕ × ℕ) :=
  (path_entries cfg).flatMap (fun e =>
    (List.range nt).flatMap (fun a => (List.range nr).map (fun b => (e, a, b))))

/-- Body of one iteration of the nested loops of lines 368-380: generate the
scaled gain sequence (line 372) and deposit it, either spread over all delay
taps through the interpolation filter (lines 374-376) or entirely at the
single nearest-sample tap (lines 378-380).  The accumulator is `none` once an
exception occurred; `__tap` raising ZeroDivisionError or the numpy assignment
`impulse_response[:, rx_idx, tx_idx, ...]` indexing out of bounds (IndexError)
produce `none`. -/
def deposit_step (cfg : Config) (rate : ℝ) (draws : ℕ → TapDraws) (nt nr : ℕ)
    (acc : Option Tensor) (c : (ℝ × ℕ × ℝ × ℝ) × ℕ × ℕ) : Option Tensor :=
  match acc, c with
  | none, _ => none
  | some T, ((power, p, lg, ng), a, b) =>
    match tap cfg lg ng (draws (p * (nt * nr) + a * nr + b)) with
    | none => none
    | some g =>
      if a < nr ∧ b < nt then
        some (fun n rx tx k => T n rx tx k +
          if rx = a ∧ tx = b then
            (if cfg.impulse_response_interpolation then
              (Real.sqrt power : ℂ) * g (n / rate) *
                ((interpolation_filter cfg rate (max_delay_in_samples cfg rate + 1) p k : ℝ) : ℂ)
            else if k = delay_idx cfg p rate then
              (Real.sqrt power : ℂ) * g (n / rate)
            else 0)
          else 0)
      else none

/-- The `impulse_response` operation (lines 354-382): a zero tensor receives
one scaled gain sequence per loop iteration, and the result is multiplied by
the scalar channel gain (line 382).  Timestamps are
`np.arange(num_samples) / sampling_rate` (line 357), so the gain sequence
value in row `n` is the tap function at `n / rate`.  `num_samples` bounds the
meaningful rows of the resulting tensor. -/
def impulse_response (cfg : Config) (draws : ℕ → TapDraws) (num_samples : ℕ)
    (rate : ℝ) (nt nr : ℕ) : Option Tensor :=
  ((tap_calls cfg nt nr).foldl (deposit_step cfg rate draws nt nr)
    (some (fun _ _ _ _ => 0))).map
    (fun T => fun n rx tx k => ((cfg.gain : ℝ) : ℂ) * T n rx tx k)

/-- Modelled from the spec: `Channel.propagate` lives in the `Channel` base
class (hermespy/channel/channel.py), which is not part of src/.  Spec section
4.5: the received sample of antenna `r` is the sum over transmit antennas `t`
of the linear convolution of transmit waveform `t` with the impulse response
slice `H[:, r, t, :]`; the output length is `num_samples + num_delay_taps - 1`
(indices `n` beyond that window, or receive antennas beyond `nr`, read as
zero). -/
def propagate (cfg : Config) (draws : ℕ → TapDraws) (x : ℕ → ℕ → ℂ)
    (num_samples : ℕ) (rate : ℝ) (nt nr : ℕ) : Option (ℕ → ℕ → ℂ) :=
  (impulse_response cfg draws num_samples rate nt nr).map (fun H => fun r n =>
    ∑ t ∈ Finset.range nt, ∑ k ∈ Finset.range (max_delay_in_samples cfg rate + 1),
      if k ≤ n ∧ n - k < num_samples then H (n - k) r t k * x t (n - k) else 0)

/-- Consecutive differences of a list, modelling `np.diff` (line 440). -/
def diffs : List ℝ → List ℝ
  | x :: y :: rest => (y - x) :: diffs (y :: rest)
  | _ => []

/-- Minimum of a list, modelling `np.min` (line 440): `np.min` of an empty
array raises ValueError, modelled as `none`. -/
def min_list : List ℝ → Option ℝ
  | [] => none
  | x :: rest => some (rest.foldl min x)

/-- Class attribute `delay_resolution_error` (line 85). -/
def delay_resolution_error : ℝ := 0.4

/-- The `min_sampling_rate` property (lines 430-446).  When interpolation is
enabled the constraint is 0.  Otherwise the source computes
`(1 - delay_resolution_error) / np.min(np.diff(delays))`: for a single path
`np.diff` is empty and `np.min` raises ValueError (`none`); for coincident
paths the float division by the zero gap yields `inf`, which the guard of
lines 442-443 maps back to 0 - modelled by the zero-gap branch. -/
def min_sampling_rate (cfg : Config) : Option ℝ :=
  if cfg.impulse_response_interpolation then some 0
  else
    match min_list (diffs cfg.delays) with
    | none => none
    | some g =>
      if g = 0 then some 0 else some ((1 - delay_resolution_error) / g)

/-- Keys of the mapping produced by `to_yaml` (lines 488-500) that concern the
fading model.  The base-class fields `active`, `sync_offset_low` and
`sync_offset_high` are outside the embedded data model and are omitted.
`rice_factors` is `Option`-valued so that the model can express that `to_yaml`
writes no such key. -/
structure YamlMapping where
  delays : List ℝ
  power_profile : List ℝ
  gain : ℝ
  num_sinusoids : ℕ
  los_angle : Option ℝ
  doppler_frequency : ℝ
  los_doppler_frequency : Option ℝ
  interpolate_signals : Option Bool
  rice_factors : Option (List RiceFactor)

/-- Serialization `to_yaml` (lines 469-502): every stored value is taken from
the channel unchanged - in particular `power_profile` is written in linear
scale (line 490) - and the state dictionary contains no `rice_factors` key. -/
def to_yaml (cfg : Config) : YamlMapping :=
  { delays := cfg.delays
    power_profile := cfg.power_profile
    gain := cfg.gain
    num_sinusoids := cfg.num_sinusoids
    los_angle := cfg.los_angle
    doppler_frequency := cfg.doppler_frequency
    los_doppler_frequency := cfg.los_doppler_frequency
    interpolate_signals := cfg.interpolate_signals
    rice_factors := none }

/-- Deserialization `from_yaml` (lines 504-534): the stored power profile is
converted from dB to linear scale via `10 ** (power / 10)` (line 532) and the
mapping is passed to the constructor.  When the mapping carries no
`rice_factors` key, `cls(**state)` raises TypeError for the missing required
argument, modelled as the error branch.  The base-class-only argument
`impulse_response_interpolation` is not part of the mapping; its base-class
default (channel.py, not in src/) is passed as `true`. -/
def from_yaml (m : YamlMapping) : Except String Config :=
  match m.rice_factors with
  | none => .error "TypeError: __init__ missing required argument rice_factors"
  | some r =>
      mk_channel m.delays (m.power_profile.map (fun q => (10 : ℝ) ^ (q / 10))) r
        (some m.num_sinusoids) m.los_angle (some m.doppler_frequency)
        m.los_doppler_frequency m.interpolate_signals true m.gain

/-! ## Helper lemmas -/

/-- Membership is preserved by `insert_path`. -/
theorem mem_insert_path (x y : ℝ × ℝ × RiceFactor) (l : List (ℝ × ℝ × RiceFactor)) :
    y ∈ insert_path x l ↔ y = x ∨ y ∈ l := by
  induction l with
  | nil => simp [insert_path]
  | cons z zs ih =>
    by_cases h : x.1 ≤ z.1
    · simp [insert_path, h]
    · simp only [insert_path, if_neg h, List.mem_cons, ih]
      tauto

/-- Membership is preserved by `sort_paths`. -/
theorem mem_sort_paths (y : ℝ × ℝ × RiceFactor) (l : List (ℝ × ℝ × RiceFactor)) :
    y ∈ sort_paths l ↔ y ∈ l := by
  induction l with
  | nil => simp [sort_paths]
  | cons z zs ih => simp [sort_paths, mem_insert_path, ih]

/-- Algebraic core of the unit-power invariant: for a valid Rice factor the
two derived gains always have squares summing to one. -/
theorem los_nlos_sq_sum (K : RiceFactor) (h : K.nonneg) :
    los_gain K ^ 2 + non_los_gain K ^ 2 = 1 := by
  cases K with
  | posInf => norm_num [los_gain, non_los_gain]
  | finite k =>
    have hk : (0:ℝ) ≤ k := h
    have h1 : (0:ℝ) < 1 + k := by linarith
    rw [los_gain, non_los_gain, Real.sq_sqrt (by positivity), div_pow, one_pow,
      Real.sq_sqrt h1.le]
    field_simp
    ring

/-- Characterization of successful construction: `mk_channel` returns a
channel exactly when the three sequences have equal nonzero length and every
delay, power factor and Rice factor is nonnegative. -/
theorem mk_channel_ok_iff (delays power_profile : List ℝ) (rice_factors : List RiceFactor)
    (ns : Option ℕ) (la : Option ℝ) (df ldf : Option ℝ) (is : Option Bool)
    (irf : Bool) (g : ℝ) :
    except_ok (mk_channel delays power_profile rice_factors ns la df ldf is irf g) ↔
      (delays.length = power_profile.length ∧ power_profile.length = rice_factors.length ∧
        1 ≤ delays.length ∧ (∀ x ∈ delays, 0 ≤ x) ∧ (∀ x ∈ power_profile, 0 ≤ x) ∧
        (∀ K ∈ rice_factors, K.nonneg)) := by
  unfold mk_channel
  split_ifs with h1 h2 h3 h4 h5
  · simp only [except_ok, false_iff]
    rintro ⟨e1, e2, -⟩
    exact h1.elim (fun h => h e1) (fun h => h e2)
  · simp only [except_ok, false_iff]
    rintro ⟨-, -, e3, -⟩
    omega
  · simp only [except_ok, false_iff]
    rintro ⟨-, -, -, e4, -⟩
    obtain ⟨x, hx, hxneg⟩ := h3
    exact absurd (e4 x hx) (not_le.mpr hxneg)
  · simp only [except_ok, false_iff]
    rintro ⟨-, -, -, -, e5, -⟩
    obtain ⟨x, hx, hxneg⟩ := h4
    exact absurd (e5 x hx) (not_le.mpr hxneg)
  · simp only [except_ok, false_iff]
    rintro ⟨-, -, -, -, -, e6⟩
    obtain ⟨k, hk, hkneg⟩ := h5
    exact absurd (e6 _ hk) (not_le.mpr hkneg)
  · simp only [except_ok, true_iff]
    push_neg at h1 h3 h4 h5
    refine ⟨h1.1, h1.2, by omega, fun x hx => h3 x hx, fun x hx => h4 x hx, ?_⟩
    intro K hK
    cases K with
    | posInf => trivial
    | finite k => exact le_of_not_lt (fun hneg => absurd hneg (not_lt.mpr (h5 k hK)))

/-! ## Claims -/

/-- C1: for every successfully constructed channel, the per-path gains derived
at construction satisfy `los_gain^2 + nlos_gain^2 = 1` for every path (the
gains being `sqrt(K/(1+K))` and `1/sqrt(1+K)` for finite Rice factor K, and
`1`, `0` for an infinite one, as the definitions `los_gain` and `non_los_gain`
record). -/
theorem construction_gains_unit_power (delays power_profile : List ℝ)
    (rice_factors : List RiceFactor) (ns : Option ℕ) (la : Option ℝ) (df ldf : Option ℝ)
    (is : Option Bool) (irf : Bool) (g : ℝ) (cfg : Config)
    (h : mk_channel delays power_profile rice_factors ns la df ldf is irf g = .ok cfg) :
    ∀ gp ∈ cfg.los_gains.zip cfg.non_los_gains, gp.1 ^ 2 + gp.2 ^ 2 = 1 := by
  unfold mk_channel at h
  split_ifs at h with h1 h2 h3 h4 h5
  cases h
  intro gp hgp
  simp only [List.zip_map'] at hgp
  obtain ⟨x, hx, rfl⟩ := List.mem_map.mp hgp
  have hmem : x ∈ delays.zip (power_profile.zip rice_factors) :=
    (mem_sort_paths x _).mp hx
  have hK : x.2.2 ∈ rice_factors := by
    obtain ⟨d, p, K⟩ := x
    exact (List.of_mem_zip (List.of_mem_zip hmem).2).2
  have hnn : x.2.2.nonneg := by
    cases hcase : x.2.2 with
    | posInf => trivial
    | finite k =>
      have : ¬ k < 0 := fun hneg => h5 ⟨k, by rw [← hcase]; exact hK, hneg⟩
      exact le_of_not_lt this
  exact los_nlos_sq_sum _ hnn

/-- Witness for C1 at the concrete path set delays=[0], powers=[1],
Rice factors=[0]. -/
theorem construction_gains_unit_power_wit :
    los_gain (.finite 0) ^ 2 + non_los_gain (.finite 0) ^ 2 = 1 := by
  have h : mk_channel [0] [1] [.finite 0] none none none none none false 1 =
      .ok { delays := [0], power_profile := [1], rice_factors := [.finite 0],
            num_sinusoids := 20, los_angle := none, doppler_frequency := 0,
            los_doppler_frequency := none, gain := 1, interpolate_signals := none,
            impulse_response_interpolation := false,
            los_gains := [los_gain (.finite 0)],
            non_los_gains := [non_los_gain (.finite 0)] } := by
    norm_num [mk_channel, sort_paths, insert_path]
  exact construction_gains_unit_power [0] [1] [.finite 0] none none none none none false 1 _ h
    (los_gain (.finite 0), non_los_gain (.finite 0)) (by simp)

/-- C7: construction raises a ValueError exactly when the delay, power and
Rice-factor sequences have mismatched lengths, the path set is empty, or some
delay, power or Rice-factor value is strictly negative; every configuration
with equal nonzero lengths and only nonnegative values passes validation. -/
theorem init_validation_iff (delays power_profile : List ℝ) (rice_factors : List RiceFactor)
    (ns : Option ℕ) (la : Option ℝ) (df ldf : Option ℝ) (is : Option Bool)
    (irf : Bool) (g : ℝ) :
    except_ok (mk_channel delays power_profile rice_factors ns la df ldf is irf g) ↔
      (delays.length = power_profile.length ∧ power_profile.length = rice_factors.length ∧
        1 ≤ delays.length ∧ (∀ x ∈ delays, 0 ≤ x) ∧ (∀ x ∈ power_profile, 0 ≤ x) ∧
        (∀ K ∈ rice_factors, K.nonneg)) :=
  mk_channel_ok_iff delays power_profile rice_factors ns la df ldf is irf g

/-- C8 counterexample: a configuration whose delay, power value and Rice
factor are all exactly zero is accepted by construction (no validation error),
contradicting the claim that zero values are rejected. -/
theorem zero_values_not_rejected :
    except_ok (mk_channel [0] [0] [.finite 0] none none none none none false 1) := by
  rw [mk_channel_ok_iff]
  norm_num [RiceFactor.nonneg]

/-- C8 amended: construction rejects only strictly negative values; a
configuration of equal nonzero lengths whose values are all nonnegative is
accepted even when some delay, power value or Rice factor equals exactly zero
(the source guards of lines 172-179 test `< 0`). -/
theorem zero_values_accepted (delays power_profile : List ℝ) (rice_factors : List RiceFactor)
    (ns : Option ℕ) (la : Option ℝ) (df ldf : Option ℝ) (is : Option Bool)
    (irf : Bool) (g : ℝ)
    (hl1 : delays.length = power_profile.length)
    (hl2 : power_profile.length = rice_factors.length)
    (hne : 1 ≤ delays.length)
    (hd : ∀ x ∈ delays, 0 ≤ x) (hp : ∀ x ∈ power_profile, 0 ≤ x)
    (hr : ∀ K ∈ rice_factors, K.nonneg)
    (hzero : 0 ∈ delays ∨ 0 ∈ power_profile ∨ RiceFactor.finite 0 ∈ rice_factors) :
    except_ok (mk_channel delays power_profile rice_factors ns la df ldf is irf g) :=
  (mk_channel_ok_iff delays power_profile rice_factors ns la df ldf is irf g).mpr
    ⟨hl1, hl2, hne, hd, hp, hr⟩

/-- Witness for C8 amended: the all-zero single-path configuration is
accepted. -/
theorem zero_values_accepted_wit :
    except_ok (mk_channel [0] [0] [.finite 0] none none none none none true 1) :=
  zero_values_accepted [0] [0] [.finite 0] none none none none none true 1
    (by norm_num) (by norm_num) (by norm_num)
    (by norm_num) (by norm_num)
    (by simp [RiceFactor.nonneg]) (Or.inl (by norm_num))

/-- A stream of draws whose values are all zero, used for concrete
evaluations. -/
def draws0 : ℕ → TapDraws :=
  fun _ => { nlos_angles := fun _ => 0, nlos_phases := fun _ => 0,
             los_angle_draw := 0, los_phase := 0 }

/-- Single-path channel with `num_sinusoids = 0` (the setter of lines 318-332
accepts this value). -/
def cfg_zero_sinusoids : Config :=
  { delays := [0], power_profile := [1], rice_factors := [.finite 0],
    num_sinusoids := 0, los_angle := none, doppler_frequency := 0,
    los_doppler_frequency := none, gain := 1, interpolate_signals := none,
    impulse_response_interpolation := false,
    los_gains := [los_gain (.finite 0)], non_los_gains := [non_los_gain (.finite 0)] }

/-- Once an exception occurred, the remaining loop iterations never recover. -/
theorem foldl_deposit_none (cfg : Config) (rate : ℝ) (draws : ℕ → TapDraws)
    (nt nr : ℕ) (l : List ((ℝ × ℕ × ℝ × ℝ) × ℕ × ℕ)) :
    l.foldl (deposit_step cfg rate draws nt nr) none = none := by
  induction l with
  | nil => rfl
  | cons c cs ih => rw [List.foldl_cons]; exact ih

/-- C10: the `num_sinusoids` setter accepts 0 (only strictly negative values
are rejected), but every tap generation with `num_sinusoids = 0` evaluates
`num_sinusoids ** -.5` and raises ZeroDivisionError, and therefore
`impulse_response` raises as soon as its loop performs at least one tap
call. -/
theorem num_sinusoids_zero_raises :
    ¬ num_sinusoids_setter_rejects 0 ∧
    (∀ cfg lg ng d, cfg.num_sinusoids = 0 → tap cfg lg ng d = none) ∧
    (∀ cfg draws num_samples rate nt nr, cfg.num_sinusoids = 0 →
      tap_calls cfg nt nr ≠ [] →
      impulse_response cfg draws num_samples rate nt nr = none) := by
  refine ⟨by simp [num_sinusoids_setter_rejects], fun cfg lg ng d h => by simp [tap, h], ?_⟩
  intro cfg draws num_samples rate nt nr hns hcalls
  unfold impulse_response
  cases hc : tap_calls cfg nt nr with
  | nil => exact absurd hc hcalls
  | cons c cs =>
    obtain ⟨⟨power, p, lg, ng⟩, a, b⟩ := c
    rw [List.foldl_cons]
    have hstep : deposit_step cfg rate draws nt nr
        (some (fun _ _ _ _ => 0)) ((power, p, lg, ng), a, b) = none := by
      simp [deposit_step, tap, hns]
    rw [hstep, foldl_deposit_none]
    rfl

/-- Witness for C10: `0` passes the setter guard, and with `num_sinusoids = 0`
both the tap generator and a single-path single-antenna impulse response
evaluation fail. -/
theorem num_sinusoids_zero_raises_wit :
    ¬ num_sinusoids_setter_rejects 0 ∧
    tap cfg_zero_sinusoids 1 0 (draws0 0) = none ∧
    impulse_response cfg_zero_sinusoids draws0 1 1 1 1 = none :=
  ⟨num_sinusoids_zero_raises.1,
   num_sinusoids_zero_raises.2.1 cfg_zero_sinusoids 1 0 (draws0 0) rfl,
   num_sinusoids_zero_raises.2.2 cfg_zero_sinusoids draws0 1 1 1 1 rfl
     (by simp [tap_calls, path_entries, cfg_zero_sinusoids, List.range_succ])⟩

/-- Channels with a single configured path, interpolation disabled. -/
def cfg_single_path : Config :=
  { delays := [0], power_profile := [1], rice_factors := [.finite 0],
    num_sinusoids := 20, los_angle := none, doppler_frequency := 0,
    los_doppler_frequency := none, gain := 1, interpolate_signals := none,
    impulse_response_interpolation := false,
    los_gains := [los_gain (.finite 0)], non_los_gains := [non_los_gain (.finite 0)] }

/-- Channel with interpolation enabled, otherwise as `cfg_single_path`. -/
def cfg_interp_on : Config :=
  { delays := [0], power_profile := [1], rice_factors := [.finite 0],
    num_sinusoids := 20, los_angle := none, doppler_frequency := 0,
    los_doppler_frequency := none, gain := 1, interpolate_signals := none,
    impulse_response_interpolation := true,
    los_gains := [los_gain (.finite 0)], non_los_gains := [non_los_gain (.finite 0)] }

/-- Lists with at most one element have no consecutive differences. -/
theorem diffs_short (l : List ℝ) (h : l.length ≤ 1) : diffs l = [] := by
  match l with
  | [] => rfl
  | [x] => rfl
  | x :: y :: rest => simp at h

/-- A left fold of `min` is bounded by its seed and by every list element. -/
theorem foldl_min_le (l : List ℝ) (x : ℝ) :
    l.foldl min x ≤ x ∧ ∀ y ∈ l, l.foldl min x ≤ y := by
  induction l generalizing x with
  | nil => simp
  | cons y ys ih =>
    have h := ih (min x y)
    refine ⟨le_trans h.1 (min_le_left x y), ?_⟩
    intro z hz
    rcases List.mem_cons.mp hz with rfl | hz
    · exact le_trans h.1 (min_le_right x z)
    · exact h.2 z hz

/-- A left fold of `min` lands on its seed or on a list element. -/
theorem foldl_min_mem (l : List ℝ) (x : ℝ) : l.foldl min x ∈ x :: l := by
  induction l generalizing x with
  | nil => simp
  | cons y ys ih =>
    have h := ih (min x y)
    rw [List.foldl_cons]
    rcases List.mem_cons.mp h with h | h
    · rw [h]
      rcases min_choice x y with hm | hm <;> rw [hm] <;> simp
    · exact List.mem_cons.mpr (Or.inr (List.mem_cons.mpr (Or.inr h)))

/-- C9 counterexample: for a valid single-path channel with interpolation
disabled, `min_sampling_rate` does not return a value (`np.min` of the empty
`np.diff` array raises ValueError), contradicting the claim that the query
always returns a value for every valid path set. -/
theorem min_sampling_rate_single_path_raises :
    min_sampling_rate cfg_single_path = none := by
  simp [min_sampling_rate, cfg_single_path, diffs, min_list]

/-- C9 amended: `min_sampling_rate` returns 0 when interpolation is enabled;
otherwise, for path sets with at least two paths it returns
`(1 - 0.4) / min(diff(delays))` (0 when two configured paths are coincident,
the minimum gap being 0), where the divisor is a minimal consecutive delay
gap; but for a single-path set with interpolation disabled the query raises
(`np.min` of the empty difference array) instead of returning a value. -/
theorem min_sampling_rate_cases (cfg : Config) :
    (cfg.impulse_response_interpolation = true → min_sampling_rate cfg = some 0) ∧
    (cfg.impulse_response_interpolation = false → cfg.delays.length ≤ 1 →
      min_sampling_rate cfg = none) ∧
    (∀ g, cfg.impulse_response_interpolation = false →
      min_list (diffs cfg.delays) = some g →
      g ∈ diffs cfg.delays ∧ (∀ x ∈ diffs cfg.delays, g ≤ x) ∧
      min_sampling_rate cfg = some (if g = 0 then 0 else (1 - delay_resolution_error) / g)) := by
  refine ⟨fun h => by simp [min_sampling_rate, h], fun h hlen => ?_, fun g h hmin => ?_⟩
  · simp [min_sampling_rate, h, diffs_short cfg.delays hlen, min_list]
  · have hspec : g ∈ diffs cfg.delays ∧ ∀ x ∈ diffs cfg.delays, g ≤ x := by
      cases hd : diffs cfg.delays with
      | nil => rw [hd] at hmin; exact absurd hmin (by simp [min_list])
      | cons z zs =>
        rw [hd] at hmin
        have hg : zs.foldl min z = g := by
          have := hmin
          simp [min_list] at this
          exact this
        constructor
        · rw [← hg]; exact foldl_min_mem zs z
        · intro x hx
          rcases List.mem_cons.mp hx with rfl | hx
          · rw [← hg]; exact (foldl_min_le zs x).1
          · rw [← hg]; exact (foldl_min_le zs z).2 x hx
    refine ⟨hspec.1, hspec.2, ?_⟩
    have hval : min_sampling_rate cfg =
        if g = 0 then some 0 else some ((1 - delay_resolution_error) / g) := by
      simp [min_sampling_rate, h, hmin]
    rw [hval]
    split_ifs <;> rfl

/-- Witness for C9 amended: with interpolation enabled the query reports no
sampling-rate constraint. -/
theorem min_sampling_rate_cases_wit : min_sampling_rate cfg_interp_on = some 0 :=
  (min_sampling_rate_cases cfg_interp_on).1 rfl

/-- The nearest-sample tap index is the floor of the delay-rate product. -/
theorem delay_idx_eq_floor (cfg : Config) (p : ℕ) (rate : ℝ) :
    delay_idx cfg p rate = Nat.floor (cfg.delays.getD p 0 * rate) :=
  Int.floor_toNat _

/-- C5: under the nearest-sample policy (interpolation disabled), a loop
iteration that generated the gain sequence `g` for path `p` deposits the
entire sequence, scaled by the square root of the path power, into the single
delay tap of index `floor(delay * sampling_rate)`, leaving every other delay
tap of the tensor unchanged - for every sampling rate and every delay. -/
theorem nearest_sample_single_tap (cfg : Config) (rate : ℝ) (draws : ℕ → TapDraws)
    (nt nr : ℕ) (T : Tensor) (power : ℝ) (p : ℕ) (lg ng : ℝ) (a b : ℕ) (g : ℝ → ℂ)
    (hint : cfg.impulse_response_interpolation = false)
    (htap : tap cfg lg ng (draws (p * (nt * nr) + a * nr + b)) = some g)
    (ha : a < nr) (hb : b < nt) :
    deposit_step cfg rate draws nt nr (some T) ((power, p, lg, ng), a, b)
      = some (fun n rx tx k => T n rx tx k +
          if rx = a ∧ tx = b ∧ k = Nat.floor (cfg.delays.getD p 0 * rate) then
            (Real.sqrt power : ℂ) * g (n / rate) else 0) := by
  simp only [deposit_step, htap, hint, Bool.false_eq_true, if_false, if_pos (And.intro ha hb)]
  congr 1
  funext n rx tx k
  congr 1
  rw [← delay_idx_eq_floor, ← ite_and]
  exact if_congr and_assoc rfl rfl

/-- Witness for C5: a concrete single-path deposit at delay 0, sampling
rate 1. -/
theorem nearest_sample_single_tap_wit :
    deposit_step cfg_single_path 1 draws0 1 1 (some (fun _ _ _ _ => 0)) ((1, 0, 1, 0), 0, 0)
      = some (fun (n rx tx k : ℕ) => (fun _ _ _ _ => (0:ℂ)) n rx tx k +
          if rx = 0 ∧ tx = 0 ∧ k = Nat.floor (cfg_single_path.delays.getD 0 0 * 1) then
            (Real.sqrt 1 : ℂ) *
              tap_body cfg_single_path 1 0 (draws0 (0 * (1 * 1) + 0 * 1 + 0)) ((n : ℝ) / 1)
          else 0) :=
  nearest_sample_single_tap cfg_single_path 1 draws0 1 1 (fun _ _ _ _ => 0) 1 0 1 0 0 0
    (tap_body cfg_single_path 1 0 (draws0 (0 * (1 * 1) + 0 * 1 + 0)))
    rfl (by simp [tap, cfg_single_path]) (by norm_num) (by norm_num)

/-- C3: evaluation at the failing antenna configuration.  With two transmit
antennas and one receive antenna the nested loop of lines 368-371 draws
`rx_idx` from `range(transmitter.num_antennas)`, so the deposit of line 380
indexes the receive dimension (of size 1) at position 1 and the call fails
with IndexError instead of producing the claimed tensor. -/
theorem impulse_response_antenna_swap :
    impulse_response cfg_single_path draws0 4 1 2 1 = none := by
  have hcalls : tap_calls cfg_single_path 2 1 =
      [((1, 0, los_gain (.finite 0), non_los_gain (.finite 0)), 0, 0),
       ((1, 0, los_gain (.finite 0), non_los_gain (.finite 0)), 1, 0)] := by
    simp [tap_calls, path_entries, cfg_single_path, List.range_succ]
  have hkill : ∀ acc, deposit_step cfg_single_path 1 draws0 2 1 acc
      ((1, 0, los_gain (.finite 0), non_los_gain (.finite 0)), 1, 0) = none := by
    intro acc
    cases acc with
    | none => rfl
    | some T => simp [deposit_step, tap, cfg_single_path]
  unfold impulse_response
  rw [hcalls, List.foldl_cons, List.foldl_cons, hkill, List.foldl_nil]
  rfl

/-- C4: with an identical random stream, the channel with scalar gain `g`
produces exactly `g` times the output of the same channel with gain 1, both
for `impulse_response` (the gain enters once, at line 382) and for
`propagate`. -/
theorem channel_gain_linear (cfg : Config) (g : ℝ) (draws : ℕ → TapDraws)
    (num_samples : ℕ) (rate : ℝ) (nt nr : ℕ) (x : ℕ → ℕ → ℂ) :
    impulse_response {cfg with gain := g} draws num_samples rate nt nr
      = (impulse_response {cfg with gain := 1} draws num_samples rate nt nr).map
          (fun H => fun n rx tx k => ((g : ℝ) : ℂ) * H n rx tx k) ∧
    propagate {cfg with gain := g} draws x num_samples rate nt nr
      = (propagate {cfg with gain := 1} draws x num_samples rate nt nr).map
          (fun y => fun r n => ((g : ℝ) : ℂ) * y r n) := by
  have hfold :
      (tap_calls ({cfg with gain := g}) nt nr).foldl
        (deposit_step ({cfg with gain := g}) rate draws nt nr) (some (fun _ _ _ _ => 0))
      = (tap_calls ({cfg with gain := 1}) nt nr).foldl
        (deposit_step ({cfg with gain := 1}) rate draws nt nr) (some (fun _ _ _ _ => 0)) := rfl
  have hir : impulse_response {cfg with gain := g} draws num_samples rate nt nr
      = (impulse_response {cfg with gain := 1} draws num_samples rate nt nr).map
          (fun H => fun n rx tx k => ((g : ℝ) : ℂ) * H n rx tx k) := by
    unfold impulse_response
    rw [hfold, Option.map_map]
    congr 1
    funext T n rx tx k
    simp
  refine ⟨hir, ?_⟩
  unfold propagate
  rw [hir, Option.map_map, Option.map_map]
  congr 1
  funext H r n
  show (∑ t ∈ Finset.range nt,
      ∑ k ∈ Finset.range (max_delay_in_samples ({cfg with gain := g}) rate + 1),
        if k ≤ n ∧ n - k < num_samples then
          ((g : ℝ) : ℂ) * H (n - k) r t k * x t (n - k) else 0)
    = ((g : ℝ) : ℂ) * ∑ t ∈ Finset.range nt,
      ∑ k ∈ Finset.range (max_delay_in_samples ({cfg with gain := 1}) rate + 1),
        if k ≤ n ∧ n - k < num_samples then H (n - k) r t k * x t (n - k) else 0
  rw [Finset.mul_sum]
  refine Finset.sum_congr rfl (fun t ht => ?_)
  rw [Finset.mul_sum]
  refine Finset.sum_congr rfl (fun k hk => ?_)
  split_ifs with hcond
  · ring
  · ring

/-- Single-path channel of the no-fading baseline: delay 0, unit power,
infinite Rice factor, unit gain (the derived gains `los_gain = 1`,
`nlos_gain = 0` are the values of `los_gain RiceFactor.posInf` and
`non_los_gain RiceFactor.posInf`). -/
def cfg_no_fading : Config :=
  { delays := [0], power_profile := [1], rice_factors := [.posInf],
    num_sinusoids := 20, los_angle := none, doppler_frequency := 0,
    los_doppler_frequency := none, gain := 1, interpolate_signals := none,
    impulse_response_interpolation := false,
    los_gains := [1], non_los_gains := [0] }

/-- The no-fading baseline configuration is exactly what construction yields
for delays=[0], powers=[1], Rice factors=[inf]. -/
theorem mk_no_fading :
    mk_channel [0] [1] [.posInf] none none none none none false 1 = .ok cfg_no_fading := by
  norm_num [mk_channel, sort_paths, insert_path, cfg_no_fading, los_gain, non_los_gain]
  intro x h
  cases h

/-- Impulse response of the no-fading baseline: a single unit-magnitude
coefficient of random phase at delay tap 0 of the (0,0) antenna pair, for
every sampling rate and request length.  The phase is the line-of-sight phase
drawn by `__tap` (line 426); the 20-sinusoid scattered sum is annihilated by
`nlos_gain = 0`, and `doppler = 0` removes every other dependence on the
stream. -/
theorem ir_no_fading (draws : ℕ → TapDraws) (ns : ℕ) (rate : ℝ) :
    impulse_response cfg_no_fading draws ns rate 1 1
      = some (fun _ rx tx k => if rx = 0 ∧ tx = 0 ∧ k = 0 then
          Complex.exp (Complex.I * (((draws 0).los_phase : ℝ) : ℂ)) else 0) := by
  have hcalls : tap_calls cfg_no_fading 1 1 = [((1, 0, 1, 0), 0, 0)] := by
    simp [tap_calls, path_entries, cfg_no_fading, List.range_succ]
  have htap : tap cfg_no_fading 1 0 (draws (0 * (1 * 1) + 0 * 1 + 0))
      = some (tap_body cfg_no_fading 1 0 (draws 0)) := by
    norm_num [tap, cfg_no_fading]
  have hbody : ∀ t, tap_body cfg_no_fading 1 0 (draws 0) t
      = Complex.exp (Complex.I * (((draws 0).los_phase : ℝ) : ℂ)) := by
    intro t
    simp [tap_body, cfg_no_fading, Config.los_doppler]
  have hidx : delay_idx cfg_no_fading 0 rate = 0 := by
    simp [delay_idx, cfg_no_fading]
  have hdep : deposit_step cfg_no_fading rate draws 1 1 (some (fun _ _ _ _ => 0))
      ((1, 0, 1, 0), 0, 0)
      = some (fun (n rx tx k : ℕ) => (0:ℂ) +
          if rx = 0 ∧ tx = 0 then
            (if k = delay_idx cfg_no_fading 0 rate then
              (Real.sqrt 1 : ℂ) * tap_body cfg_no_fading 1 0 (draws 0) ((n : ℝ) / rate)
            else 0)
          else 0) := by
    rw [deposit_step, htap]
    norm_num [cfg_no_fading]
  unfold impulse_response
  rw [hcalls, List.foldl_cons, List.foldl_nil, hdep]
  refine congrArg _ (funext fun n => funext fun rx => funext fun tx => funext fun k => ?_)
  rw [hidx]
  simp only [hbody, Real.sqrt_one, zero_add]
  by_cases h1 : rx = 0 ∧ tx = 0
  · by_cases h2 : k = 0
    · simp [cfg_no_fading, h1, h2]
    · simp [cfg_no_fading, h1, h2]
  · rw [if_neg h1, if_neg (fun hc => h1 ⟨hc.1, hc.2.1⟩)]
    simp [cfg_no_fading]

/-- C2 counterexample: for the no-fading configuration (single path, delay 0,
Rice factor infinity, gain 1) and a random-stream state whose line-of-sight
phase draw is pi, propagating the constant-one input of length 1 returns -1 at
sample 0, not the input value 1: `propagate` does not reproduce the input
sample-for-sample and its output depends on the random stream. -/
theorem propagate_no_fading_not_identity :
    (propagate cfg_no_fading
        (fun _ => { nlos_angles := fun _ => 0, nlos_phases := fun _ => 0,
                    los_angle_draw := 0, los_phase := Real.pi })
        (fun _ _ => 1) 1 1 1 1).map (fun y => y 0 0) = some (-1) ∧ ((-1 : ℂ) ≠ 1) := by
  refine ⟨?_, by norm_num⟩
  unfold propagate
  rw [ir_no_fading]
  have hmd : max_delay_in_samples cfg_no_fading 1 = 0 := by
    simp [max_delay_in_samples, cfg_no_fading]
  rw [hmd]
  simp [Finset.sum_range_one, mul_comm Complex.I ((Real.pi : ℝ) : ℂ), Complex.exp_pi_mul_I]

/-- C2 amended: for the no-fading configuration (single path with delay 0,
Rice factor infinity, path power 1, channel gain 1), `propagate` multiplies
the input by the unit-magnitude factor `exp(i*phi)` where `phi` is the
line-of-sight phase drawn from the random stream: the output is supported on
the `num_samples` input positions of receive antenna 0 (length-preserving, no
added energy since the factor has modulus one), but it equals the input only
up to that stream-dependent phase rotation, not sample-for-sample. -/
theorem propagate_no_fading_phase (draws : ℕ → TapDraws) (x : ℕ → ℕ → ℂ)
    (ns : ℕ) (rate : ℝ) :
    propagate cfg_no_fading draws x ns rate 1 1
      = some (fun r n => if r = 0 ∧ n < ns then
          Complex.exp (Complex.I * (((draws 0).los_phase : ℝ) : ℂ)) * x 0 n else 0) := by
  unfold propagate
  rw [ir_no_fading]
  have hmd : max_delay_in_samples cfg_no_fading rate = 0 := by
    simp [max_delay_in_samples, cfg_no_fading]
  rw [hmd]
  refine congrArg _ (funext fun r => funext fun n => ?_)
  simp only [Finset.sum_range_one, Option.map_some]
  by_cases hr : r = 0
  · by_cases hn : n < ns
    · simp [hr, hn]
    · simp [hr, hn]
  · simp [hr]

/-- Channel used to exhibit the serialization defect: linear path power 20. -/
def cfg_yaml : Config :=
  { delays := [0], power_profile := [20], rice_factors := [.finite 1],
    num_sinusoids := 20, los_angle := none, doppler_frequency := 0,
    los_doppler_frequency := none, gain := 1, interpolate_signals := none,
    impulse_response_interpolation := true,
    los_gains := [los_gain (.finite 1)], non_los_gains := [non_los_gain (.finite 1)] }

/-- C6: evaluation of the broken round trip.  `to_yaml` writes the power
profile in linear scale unchanged and writes no `rice_factors` key, while
`from_yaml` requires `rice_factors` (so `cls(**state)` raises TypeError on
`to_yaml` output) and reinterprets the stored powers as dB via
`10 ** (power / 10)` - which would turn the stored linear power 20 into 100
rather than restoring the original value. -/
theorem yaml_roundtrip_broken :
    from_yaml (to_yaml cfg_yaml)
      = .error "TypeError: __init__ missing required argument rice_factors" ∧
    (to_yaml cfg_yaml).power_profile = [20] ∧
    ((to_yaml cfg_yaml).power_profile.map (fun q => (10 : ℝ) ^ (q / 10))) = [100] ∧
    ((100 : ℝ) ≠ 20) := by
  refine ⟨rfl, rfl, ?_, by norm_num⟩
  show [(10 : ℝ) ^ ((20 : ℝ) / 10)] = [100]
  rw [show ((20 : ℝ) / 10) = ((2 : ℕ) : ℝ) by norm_num, Real.rpow_natCast]
  norm_num

end

end MultipathFading
